import Mathlib

/-!
Verification development for the governance simulation `governance_toy.py`.

The source is a single Python module.  We shallowly embed its data model and
the two protocols the claims are about:

* the population generator (`create_problems_dict`, `assign_preferences`),
* the preference-discovery protocol (`ask_for_preference`,
  `paradox_ask_preferences`, `search_for_top_preferences`),
* the expertise-weighted resolution protocol (`ask_for_solve`,
  `check_for_win`, `ask_experts_to_solve`),
* the two-layered strategy (`paradox_solve`).

Modelling conventions, each taken directly from the source:

* Problems are identified by natural numbers: the source's string key
  `'problem' + str(n)` is modelled as `n`.
* Python dicts become association lists (`List (key × value)`) whose order is
  the dict's iteration order, or plain functions where only lookups occur.
* The process-wide random source is an explicit stream `ℕ → ℚ` of uniform
  draws (or an explicit list of draws), threaded by position.
* Python 2 `round(x, k)` (round half away from zero) agrees with Mathlib's
  `round` (round half up) on the nonnegative values that occur here; floats
  are idealised as rationals.
* Exceptions (`ValueError`, `RuntimeError`) are modelled with `Except` /
  a distinguished `Outcome` constructor.
-/

/- `Rat.mul`, `Rat.inv`, `Rat.add` and `Rat.sub` are `@[irreducible]` in
Batteries; re-allow unfolding them so that concrete runs of the embedded
functions can be evaluated by `decide`. -/
unseal Rat.mul Rat.inv Rat.add Rat.sub

/-- `round(x, 4)` from the source (line 201), on nonnegative rationals. -/
def round4 (x : ℚ) : ℚ := (round (x * 10000) : ℤ) / 10000

/-- `round(x, 1)` from the source (line 74), on nonnegative rationals. -/
def round1 (x : ℚ) : ℚ := (round (x * 10) : ℤ) / 10

/-- One value of `top_problems_dict`: `{'pref_total': ..., 'solved': ...}`. -/
structure TopEntry where
  pref_total : ℤ
  solved : Bool
deriving DecidableEq, Repr

/-- `top_problems_dict` as an association list in iteration order. -/
abbrev TopDict := List (ℕ × TopEntry)

/-- The generated agent population.  `keys` is the iteration order of the
`agents` dict (ascending `1..A` for Python 2's int-keyed dict), `prefs a` is
the association list `agents[a]['preferences']` in iteration order, and
`expertise a p` is `agents[a]['expertise'][p]`. -/
structure Agents where
  keys : List ℕ
  prefs : ℕ → List (ℕ × ℚ)
  expertise : ℕ → ℕ → ℚ

/-- `known_preferences`: per agent, the revealed problem ↦ value pairs. -/
abbrev KnownPrefs := ℕ → List (ℕ × ℚ)

/-- Result of one `ask_for_solve` call: the bare `100` win sentinel, or the
pair `[solved?, top_problems_dict]`. -/
inductive SolveResult where
  | win : SolveResult
  | cont : Bool → TopDict → SolveResult
deriving DecidableEq, Repr

/-- Normalised result of `ask_experts_to_solve`: the `ValueError` for a bad
cutoff, the `[-1]` budget sentinel, `[100, steps, solved]`, or
`[0, steps, solved]`. -/
inductive Outcome where
  | config_error : Outcome
  | budget : Outcome
  | win : ℕ → ℕ → Outcome
  | incomplete : ℕ → ℕ → Outcome
deriving DecidableEq, Repr

/-- Python exceptions that escape the protocols: the discovery budget
`RuntimeError` (carrying the step count printed in its message) and the
cutoff `ValueError`. -/
inductive PyError where
  | runtime : ℕ → PyError
  | value : PyError
deriving DecidableEq, Repr

/-! ## Resolution protocol (`ask_for_solve`, `check_for_win`,
`ask_experts_to_solve`, source lines 197-322) -/

/-- The success/failure counters of `ask_for_solve` (lines 198-204): each
asked agent draws one uniform `d` and succeeds iff `round(d, 4)` is strictly
below its own expertise for the problem. -/
def tallyVotes (agents : Agents) (agents_to_ask : List ℕ) (problem : ℕ)
    (draws : List ℚ) : ℕ × ℕ :=
  (agents_to_ask.zip draws).foldl
    (fun acc ad =>
      if round4 ad.2 < agents.expertise ad.1 problem then (acc.1 + 1, acc.2)
      else (acc.1, acc.2 + 1))
    (0, 0)

/-- `check_for_win` (lines 216-220): every tracked top problem is solved. -/
def check_for_win (top : TopDict) : Bool := top.all (fun e => e.2.solved)

/-- The mutation `top_problems_dict[problem]['solved'] = True` (lines
206-207); a no-op when the problem is not tracked.  Keys are unique in every
generated dict, so a map-update is the dict update. -/
def markSolved (top : TopDict) (problem : ℕ) : TopDict :=
  top.map (fun e => if e.1 = problem then (e.1, { e.2 with solved := true }) else e)

/-- `ask_for_solve` (lines 197-213). -/
def ask_for_solve (agents : Agents) (agents_to_ask : List ℕ) (problem : ℕ)
    (draws : List ℚ) (top : TopDict) : SolveResult :=
  let t := tallyVotes agents agents_to_ask problem draws
  if t.1 > t.2 then
    let top2 := markSolved top problem
    if check_for_win top2 then .win else .cont true top2
  else .cont false top

/-- The cohort-size-many uniform draws of one attempt, taken from the random
stream starting at position `pos`. -/
def attemptDraws (stream : ℕ → ℚ) (pos k : ℕ) : List ℚ :=
  (List.range k).map (fun i => stream (pos + i))

/-- The voting cohort for a problem (lines 289-293 and 298/311-312): the
agents whose expertise is `≥ expertise_cutoff`, or the whole population when
no such agent exists. -/
def cohortFor (agents : Agents) (cutoff : ℚ) (problem : ℕ) : List ℕ :=
  let ex := agents.keys.filter (fun a => agents.expertise a problem ≥ cutoff)
  if ex.length > 0 then ex else agents.keys

/-- The nested solving loops of `ask_experts_to_solve` (lines 296-322).
`slack` carries `maxSteps - new_steps` (truncated), so the source's budget
test `new_steps + 1 > maxSteps` after an attempt is exactly `slack = 0`; the
budget test precedes the `== 100` win test, as in the source. -/
def solveGo (agents : Agents) (cutoff : ℚ) (stream : ℕ → ℚ) :
    ℕ → List ℕ → ℕ → ℕ → ℕ → TopDict → Outcome
  | _, [], new_steps, tps, _, _ => .incomplete new_steps tps
  | 0, _ :: _, _, _, _, _ => .budget
  | slack + 1, p :: rest, new_steps, tps, pos, top =>
    let cohort := cohortFor agents cutoff p
    match ask_for_solve agents cohort p (attemptDraws stream pos cohort.length) top with
    | .win => .win (new_steps + 1) (tps + 1)
    | .cont true top2 =>
      solveGo agents cutoff stream slack rest (new_steps + 1) (tps + 1)
        (pos + cohort.length) top2
    | .cont false top2 =>
      solveGo agents cutoff stream slack (p :: rest) (new_steps + 1) tps
        (pos + cohort.length) top2

/-- `ask_experts_to_solve` (lines 284-322).  The step budget is
`len(agents[1]['preferences']) * 100`. -/
def ask_experts_to_solve (agents : Agents) (targets : List ℕ) (steps : ℕ)
    (top : TopDict) (expertise_cutoff : ℚ) (stream : ℕ → ℚ) : Outcome :=
  if expertise_cutoff > 1 ∨ expertise_cutoff < 0 then .config_error
  else
    solveGo agents expertise_cutoff stream
      ((agents.prefs 1).length * 100 - steps) targets steps 0 0 top

/-- `True` exactly on the attempt results the source treats as "solved"
(`100` or `[True, ...]`). -/
def attempt_solves : SolveResult → Bool
  | .cont false _ => false
  | _ => true

/-! ## Population generator (`create_problems_dict`, lines 37-53, and
`assign_preferences`, lines 64-79) -/

/-- The loop of lines 47-52 over the shuffled problem list: assigns weights
`total, total - 1, ...` in iteration order and flags the first ten problems
(counter `top_problem_count`) as the tracked top set. -/
def buildDicts : List ℕ → ℤ → ℕ → List (ℕ × ℤ) × TopDict
  | [], _, _ => ([], [])
  | p :: rest, total, cnt =>
    let r := buildDicts rest (total - 1) (if cnt < 10 then cnt + 1 else cnt)
    ((p, total) :: r.1,
      if cnt < 10 then (p, ⟨total, false⟩) :: r.2 else r.2)

/-- `create_problems_dict` (lines 37-53), parametrised by the shuffled
problem list (the outcome of `shuffle(problems)` on line 43).  Returns
`[problems_dict, top_problems_dict]`. -/
def create_problems_dict (shuffled : List ℕ) (number_of_problems : ℕ) :
    List (ℕ × ℤ) × TopDict :=
  buildDicts shuffled (number_of_problems : ℤ) 0

/-- The in-place rounding loop of lines 73-75, faithful to its Python
semantics: iteration `i` reads the current element at position `i` and writes
the rounded value at the position of the FIRST occurrence of that value
(`list.index`), in the list as mutated so far. -/
def roundLoop (denom weight : ℚ) : ℕ → ℕ → List ℚ → List ℚ
  | 0, _, l => l
  | rem + 1, i, l =>
    let rand := l.getD i 0
    roundLoop denom weight rem (i + 1)
      (l.set (l.indexOf rand) (round1 (rand / denom * weight)))

/-- Lines 67-75 for one problem: from the raw uniform draws, build the list
of rounded preference fractions (denominator is the sum of all draws). -/
def preference_fractions (draws : List ℚ) (weight : ℚ) : List ℚ :=
  roundLoop draws.sum weight draws.length 0 draws

/-- Lines 76-78 for one problem: iterate the (shuffled) agent key list and
give agent `a` the fraction at index `a - 1`.  The result is the
agent ↦ preference association produced for this problem. -/
def assign_preferences_problem (order : List ℕ) (draws : List ℚ)
    (weight : ℚ) : List (ℕ × ℚ) :=
  order.map (fun a => (a, (preference_fractions draws weight).getD (a - 1) 0))

/-! ## Preference discovery (`ask_for_preference`, `paradox_ask_preferences`,
`search_for_top_preferences`, lines 184-282) -/

/-- `ask_for_preference` (lines 184-194): reveal the asked agent's highest
not-yet-revealed preference (first maximum in iteration order); a no-op when
everything is revealed (the `['', -1]` sentinel is modelled as `(0, -1)`,
problem identifiers being positive). -/
def ask_for_preference (agent_to_ask : ℕ) (agents : Agents)
    (kp : KnownPrefs) : KnownPrefs :=
  let next := (agents.prefs agent_to_ask).foldl
    (fun best pp =>
      if ((kp agent_to_ask).lookup pp.1).isSome then best
      else if pp.2 > best.2 then pp else best)
    (0, -1)
  if next ≠ (0, -1) then
    fun a => if a = agent_to_ask then kp a ++ [(next.1, next.2)] else kp a
  else kp

/-- The elicitation while-loop of lines 255-261.  `rem` counts the remaining
asks (`number_of_steps - steps`), `steps` the asks done so far; after each
ask the episode-internal budget `steps > maxSteps` raises the
`RuntimeError` (modelled as `.error`), and the agent id cycles through
`1..len(agents)`. -/
def askLoop (agents : Agents) (maxSteps : ℕ) :
    ℕ → ℕ → ℕ → KnownPrefs → Except PyError (KnownPrefs × ℕ)
  | 0, steps, _, kp => .ok (kp, steps)
  | rem + 1, steps, agentid, kp =>
    let kp2 := ask_for_preference agentid agents kp
    let steps2 := steps + 1
    if steps2 > maxSteps then .error (.runtime steps2)
    else
      let aid2 :=
        if agentid + 1 > agents.keys.length then agentid + 1 - agents.keys.length
        else agentid + 1
      askLoop agents maxSteps rem steps2 aid2 kp2

/-- Lines 266-270: add one revealed value into `top_problem_log`
(accumulate if the problem is present, else insert). -/
def addLog (log : List (ℕ × ℚ)) (p : ℕ) (v : ℚ) : List (ℕ × ℚ) :=
  if (log.lookup p).isSome then
    log.map (fun e => if e.1 = p then (e.1, e.2 + v) else e)
  else log ++ [(p, v)]

/-- The inner countdown loop of lines 264-271 for one agent: walk problem
ids `n, n-1, ..., 1` and add each revealed preference into the log. -/
def resumAgent (kpA : List (ℕ × ℚ)) : ℕ → List (ℕ × ℚ) → List (ℕ × ℚ)
  | 0, log => log
  | n + 1, log =>
    match kpA.lookup (n + 1) with
    | some v => resumAgent kpA n (addLog log (n + 1) v)
    | none => resumAgent kpA n log

/-- Lines 262-271: add up the known preferences of every agent into
`top_problem_log`. -/
def resumLog (agents : Agents) (kp : KnownPrefs) (log : List (ℕ × ℚ)) :
    List (ℕ × ℚ) :=
  agents.keys.foldl (fun acc a => resumAgent (kp a) (agents.prefs a).length acc) log

/-- `max(top_problem_log, key=top_problem_log.get)`: the first entry with
maximal value in iteration order. -/
def firstMax (l : List (ℕ × ℚ)) : ℕ × ℚ :=
  l.foldl (fun best e => if e.2 > best.2 then e else best) (l.headD (0, 0))

/-- The extraction loop of lines 272-281: pop the top entry of the log up to
`top_probs_remaining` times, appending unseen problems to the hypothesized
list, and stop early when the log empties. -/
def extractTop : ℕ → List (ℕ × ℚ) → List ℕ → List ℕ × List (ℕ × ℚ)
  | 0, log, hyp => (hyp, log)
  | k + 1, log, hyp =>
    if log.length > 0 then
      let tp := (firstMax log).1
      extractTop k (log.filter (fun e => e.1 ≠ tp))
        (if hyp.contains tp then hyp else hyp ++ [tp])
    else (hyp, log)

/-- `paradox_ask_preferences` (lines 250-282): one discovery episode.  The
budget is `len(agents[1]['preferences']) * 100`, and `int(.1 * P)` is `P / 10`.
Returns `[hypothesized_top_problems, steps, known_preferences, top_problem_log]`. -/
def paradox_ask_preferences (agents : Agents) (number_of_steps : ℕ)
    (kp : KnownPrefs) (hyp : List ℕ) (log : List (ℕ × ℚ)) :
    Except PyError (List ℕ × ℕ × KnownPrefs × List (ℕ × ℚ)) :=
  let maxSteps := (agents.prefs 1).length * 100
  match askLoop agents maxSteps number_of_steps 0 1 kp with
  | .error e => .error e
  | .ok (kp2, steps) =>
    let log2 := resumLog agents kp2 log
    let ext := extractTop (10 + (agents.prefs 1).length / 10) log2 hyp
    .ok (ext.1, steps, kp2, ext.2)

/-- `list1_contain_list2` (lines 223-231): the truncated percentage of
`list2`'s elements present in `list1`. -/
def list1_contain_list2 (list1 list2 : List ℕ) : ℕ :=
  let differences := (list2.filter (fun e2 => !list1.contains e2)).length
  (list2.length - differences) * 100 / list2.length

/-- Line 236: `int(number_of_agents * .5) + 1`, the size of the episode run
by this `search_for_top_preferences` call. -/
def preference_search_steps (number_of_agents : ℕ) : ℕ :=
  number_of_agents / 2 + 1

/-- `search_for_top_preferences` (lines 234-248), with explicit recursion
fuel (the source recurses unboundedly; `.ok none` models running out of
fuel before containment reaches 100%).  `top_keys` is the key list of
`top_problems_dict`, which is all the containment check reads. -/
def search_for_top_preferences (agents : Agents) :
    ℕ → ℕ → KnownPrefs → List ℕ → List ℕ → ℕ → List (ℕ × ℚ) →
    Except PyError (Option (ℕ × ℕ × List ℕ × KnownPrefs))
  | 0, _, _, _, _, _, _ => .ok none
  | fuel + 1, number_of_agents, kp, top_keys, hyp, steps, log =>
    match paradox_ask_preferences agents (preference_search_steps number_of_agents)
        kp hyp log with
    | .error e => .error e
    | .ok (hyp2, epsteps, kp2, log2) =>
      let steps2 := steps + epsteps
      let cp := list1_contain_list2 hyp2 top_keys
      if cp < 100 then
        search_for_top_preferences agents fuel
          (preference_search_steps number_of_agents) kp2 top_keys hyp2 steps2 log2
      else .ok (some (steps2, cp, hyp2, kp2))

/-- Lines 108-111 (also 160-163): the argument passed to the first
`search_for_top_preferences` call. -/
def starting_steps (number_of_agents number_of_problems : ℕ) : ℕ :=
  if number_of_problems > number_of_agents then number_of_problems
  else number_of_agents

/-- The `number_of_agents` argument received by the `k`-th (0-based)
recursive `search_for_top_preferences` call of a discovery run: the first
call gets `starting_steps` (line 112), every later call the previous call's
`preference_search_steps` value (line 245). -/
def episode_arg (number_of_agents number_of_problems : ℕ) : ℕ → ℕ
  | 0 => starting_steps number_of_agents number_of_problems
  | k + 1 => preference_search_steps (episode_arg number_of_agents number_of_problems k)

/-- The number of asks of the `k`-th episode of a discovery run: the
`preference_search_steps` value the `k`-th search call passes to
`paradox_ask_preferences` (lines 236-237). -/
def episode_size (number_of_agents number_of_problems k : ℕ) : ℕ :=
  preference_search_steps (episode_arg number_of_agents number_of_problems k)

/-- `paradox_solve` (lines 100-128), parametrised by the generated
population (`init`'s randomness) and by the solve-draw stream.  The
resolution `[-1]` sentinel becomes a normal `[-1]` return; the discovery
`RuntimeError` propagates as `.error`; `none` models search-fuel
exhaustion. -/
def paradox_solve (agents : Agents) (number_of_agents number_of_problems : ℕ)
    (top : TopDict) (fuel : ℕ) (stream : ℕ → ℚ) :
    Except PyError (Option (List ℤ)) :=
  match search_for_top_preferences agents fuel
      (starting_steps number_of_agents number_of_problems)
      (fun _ => []) (top.map Prod.fst) [] 0 [] with
  | .error e => .error e
  | .ok none => .ok none
  | .ok (some (steps, _, hyp, _)) =>
    match ask_experts_to_solve agents hyp steps top (1 / 2) stream with
    | .config_error => .error .value
    | .budget => .ok (some [-1])
    | .win s t => .ok (some [100, (s : ℤ), (t : ℤ)])
    | .incomplete s t => .ok (some [0, (s : ℤ), (t : ℤ)])

/-! ## Concrete populations used by witnesses and counterexamples -/

/-- One fully-expert agent; ten problems in its preference dict. -/
def agents_one : Agents :=
  ⟨[1], fun _ => (List.range 10).map (fun i => (i + 1, (0 : ℚ))), fun _ _ => 1⟩

/-- One fully-expert agent; eleven problems in its preference dict. -/
def agents_eleven : Agents :=
  ⟨[1], fun _ => (List.range 11).map (fun i => (i + 1, (0 : ℚ))), fun _ _ => 1⟩

/-- One agent with zero expertise everywhere; ten problems. -/
def agents_inexpert : Agents :=
  ⟨[1], fun _ => (List.range 10).map (fun i => (i + 1, (0 : ℚ))), fun _ _ => 0⟩

/-- Two agents over a single problem: agent 1 fully expert, agent 2 not. -/
def agents_mixed : Agents :=
  ⟨[1, 2], fun _ => [(1, (0 : ℚ))], fun a _ => if a = 1 then 1 else 0⟩

/-- A canonical top-10 tracking dict, none solved (weights `10..1`). -/
def top_fresh : TopDict := (List.range 10).map (fun i => (i + 1, ⟨(10 : ℤ) - i, false⟩))

/-- A canonical top-10 tracking dict with problem 1 unsolved, the rest solved. -/
def top_nine_solved : TopDict :=
  (1, ⟨10, false⟩) :: (List.range 9).map (fun i => (i + 2, ⟨(9 : ℤ) - i, true⟩))

/-! ## Helper lemmas about the resolution protocol -/

/-- `solveGo` never produces the configuration-error outcome (the cutoff
check happens before the loops). -/
theorem solveGo_ne_config (agents : Agents) (cutoff : ℚ) (stream : ℕ → ℚ) :
    ∀ (slack : ℕ) (targets : List ℕ) (ns tps pos : ℕ) (top : TopDict),
    solveGo agents cutoff stream slack targets ns tps pos top ≠ .config_error := by
  intro slack
  induction slack with
  | zero => intro targets ns tps pos top; cases targets <;> simp [solveGo]
  | succ n ih =>
    intro targets ns tps pos top
    cases targets with
    | nil => simp [solveGo]
    | cons p rest =>
      cases h : ask_for_solve agents (cohortFor agents cutoff p) p
          (attemptDraws stream pos (cohortFor agents cutoff p).length) top with
      | win => simp [solveGo, h]
      | cont b top2 => cases b <;> simp [solveGo, h] <;> apply ih

/-- A winning attempt means the (updated) tracked top set is fully solved. -/
theorem ask_for_solve_win_cfw {agents : Agents} {c : List ℕ} {p : ℕ}
    {d : List ℚ} {top : TopDict}
    (h : ask_for_solve agents c p d top = .win) :
    check_for_win (markSolved top p) = true := by
  simp only [ask_for_solve] at h
  split at h
  · split at h
    · assumption
    · exact absurd h (by simp)
  · exact absurd h (by simp)

/-- A `[True, dict]` attempt result carries the updated dict. -/
theorem ask_for_solve_cont_true {agents : Agents} {c : List ℕ} {p : ℕ}
    {d : List ℚ} {top top2 : TopDict}
    (h : ask_for_solve agents c p d top = .cont true top2) :
    top2 = markSolved top p := by
  simp only [ask_for_solve] at h
  split at h
  · split at h
    · exact absurd h (by simp)
    · exact (SolveResult.cont.injEq _ _ _ _).mp h.symm |>.2
  · exact absurd ((SolveResult.cont.injEq _ _ _ _).mp h.symm).1 (by simp)

/-- A `[False, dict]` attempt result leaves the dict unchanged. -/
theorem ask_for_solve_cont_false {agents : Agents} {c : List ℕ} {p : ℕ}
    {d : List ℚ} {top top2 : TopDict}
    (h : ask_for_solve agents c p d top = .cont false top2) :
    top2 = top := by
  simp only [ask_for_solve] at h
  split at h
  · split at h
    · exact absurd h (by simp)
    · exact absurd ((SolveResult.cont.injEq _ _ _ _).mp h.symm).1 (by simp)
  · exact (SolveResult.cont.injEq _ _ _ _).mp h.symm |>.2

/-- Marking a different problem leaves a tracked entry untouched. -/
theorem mem_markSolved_of_ne {q : ℕ} {e : TopEntry} {top : TopDict} {p : ℕ}
    (hm : (q, e) ∈ top) (hne : q ≠ p) : (q, e) ∈ markSolved top p := by
  unfold markSolved
  refine List.mem_map.2 ⟨(q, e), hm, ?_⟩
  simp [hne]

/-- If the win check passes, every tracked entry is solved. -/
theorem check_for_win_mem {top : TopDict} {q : ℕ} {e : TopEntry}
    (h : check_for_win top = true) (hm : (q, e) ∈ top) : e.solved = true := by
  have := List.all_eq_true.mp h _ hm
  simpa using this

/-- The `[100, ...]` full-success outcomes. -/
def is_win_outcome : Outcome → Bool
  | .win _ _ => true
  | _ => false

/-- The `[0, steps, solved]` partial/zero outcomes. -/
def is_incomplete_outcome : Outcome → Bool
  | .incomplete _ _ => true
  | _ => false

/-! ## C6: cutoff validation -/

/-- C6: `ask_experts_to_solve` with `expertise_cutoff` outside `[0, 1]`
raises the configuration error immediately (for every target set, step
count, dict and random stream — no cohort is formed and no attempt or step
happens, the error being returned before the loops); a cutoff inside
`[0, 1]`, endpoints included, never produces the configuration error. -/
theorem c6_cutoff_validation (agents : Agents) (targets : List ℕ) (steps : ℕ)
    (top : TopDict) (cutoff : ℚ) (stream : ℕ → ℚ) :
    ((cutoff > 1 ∨ cutoff < 0) →
      ask_experts_to_solve agents targets steps top cutoff stream = .config_error)
    ∧ (0 ≤ cutoff → cutoff ≤ 1 →
      ask_experts_to_solve agents targets steps top cutoff stream ≠ .config_error) := by
  constructor
  · intro h
    simp only [ask_experts_to_solve, if_pos h]
  · intro h0 h1
    have hc : ¬(cutoff > 1 ∨ cutoff < 0) := by
      push_neg
      exact ⟨h1, h0⟩
    simp only [ask_experts_to_solve, if_neg hc]
    apply solveGo_ne_config

/-- Witness for C6 at cutoffs `1.5`, `-0.1`, `1` and `0`. -/
theorem c6_cutoff_validation_witness :
    ask_experts_to_solve agents_one [] 0 [] (3 / 2) (fun _ => 0) = .config_error
    ∧ ask_experts_to_solve agents_one [] 0 [] (-1 / 10) (fun _ => 0) = .config_error
    ∧ ask_experts_to_solve agents_one [] 0 [] 1 (fun _ => 0) ≠ .config_error
    ∧ ask_experts_to_solve agents_one [] 0 [] 0 (fun _ => 0) ≠ .config_error :=
  ⟨(c6_cutoff_validation agents_one [] 0 [] (3 / 2) (fun _ => 0)).1 (Or.inl (by norm_num)),
   (c6_cutoff_validation agents_one [] 0 [] (-1 / 10) (fun _ => 0)).1 (Or.inr (by norm_num)),
   (c6_cutoff_validation agents_one [] 0 [] 1 (fun _ => 0)).2 (by norm_num) (by norm_num),
   (c6_cutoff_validation agents_one [] 0 [] 0 (fun _ => 0)).2 (by norm_num) (by norm_num)⟩

/-! ## C2: the win check after every attempt, vs the budget check -/

/-- C2 counterexample: a resolution call in which the attempt completes the
canonical top-10 (the attempt result is the `100` win sentinel) yet the call
returns the budget sentinel, because the budget test `new_steps > 100 * P`
(line 302) precedes the `== 100` test (line 304).  Here `steps` starts at
the budget `10 * 100`, so the very attempt that solves the last unsolved top
problem is also the one that exceeds the budget. -/
theorem c2_counterexample :
    ask_for_solve agents_one (cohortFor agents_one (1 / 2) 1) 1
        (attemptDraws (fun _ => 0) 0 (cohortFor agents_one (1 / 2) 1).length)
        top_nine_solved = .win
    ∧ ask_experts_to_solve agents_one [1] 1000 top_nine_solved (1 / 2) (fun _ => 0)
        = .budget := by
  constructor
  · decide
  · decide

/-- C2 as amended: whenever an attempt's result is the `100` win sentinel
(equivalently, the cohort's successes strictly outnumber its failures and
afterwards every tracked top problem is solved) AND the attempt does not
itself exhaust the step budget (`slack + 1` remaining), the call returns the
full-success outcome immediately, with that attempt's step counted and the
remaining targets never attempted. -/
theorem c2_win_shortcut_after_attempt (agents : Agents) (cutoff : ℚ)
    (stream : ℕ → ℚ) (slack p : ℕ) (rest : List ℕ) (ns tps pos : ℕ)
    (top : TopDict) :
    (ask_for_solve agents (cohortFor agents cutoff p) p
        (attemptDraws stream pos (cohortFor agents cutoff p).length) top = .win
      ↔ (tallyVotes agents (cohortFor agents cutoff p) p
            (attemptDraws stream pos (cohortFor agents cutoff p).length)).1 >
          (tallyVotes agents (cohortFor agents cutoff p) p
            (attemptDraws stream pos (cohortFor agents cutoff p).length)).2
        ∧ check_for_win (markSolved top p) = true)
    ∧ (ask_for_solve agents (cohortFor agents cutoff p) p
        (attemptDraws stream pos (cohortFor agents cutoff p).length) top = .win →
      solveGo agents cutoff stream (slack + 1) (p :: rest) ns tps pos top
        = .win (ns + 1) (tps + 1)) := by
  constructor
  · constructor
    · intro h
      refine ⟨?_, ask_for_solve_win_cfw h⟩
      by_contra hgt
      simp only [ask_for_solve, if_neg hgt] at h
      exact absurd h (by simp)
    · rintro ⟨hgt, hcfw⟩
      simp only [ask_for_solve, if_pos hgt, hcfw, if_true]
  · intro h
    simp only [solveGo, h]

/-- Witness for C2's amended theorem: one fully-expert agent, nine of the
ten tracked problems already solved, ample budget; the first attempt wins
and the call stops at `[100, 1, 1]`. -/
theorem c2_win_shortcut_witness :
    solveGo agents_one (1 / 2) (fun _ => 0) 5 [1] 0 0 0 top_nine_solved
      = .win 1 1 :=
  (c2_win_shortcut_after_attempt agents_one (1 / 2) (fun _ => 0) 4 1 [] 0 0 0
    top_nine_solved).2 (by decide)

/-! ## C1: the win shortcut is keyed to the canonical top-10, not to the
target set -/

/-- C1 counterexample: a resolution call over eleven targets — a target set
that is NOT the canonical top-10 key set — in which the global win shortcut
does fire: after the ten tracked problems are solved the call returns
`[100, 10, 10]` without ever attempting the eleventh target, instead of the
claimed partial/zero outcome over all eleven targets. -/
theorem c1_counterexample :
    ask_experts_to_solve agents_eleven [1, 2, 3, 4, 5, 6, 7, 8, 9, 10, 11] 0
        top_fresh (1 / 2) (fun _ => 0) = .win 10 10
    ∧ ([1, 2, 3, 4, 5, 6, 7, 8, 9, 10, 11] : List ℕ) ≠ top_fresh.map Prod.fst := by
  constructor
  · decide
  · decide

/-- C1 as amended: the win shortcut is keyed to the canonical top-10 solved
flags regardless of the target set, so it can fire for any target set.  Only
when the tracked top set cannot become fully solved — witnessed here by an
unsolved tracked problem that is outside the target list — does the call
never return the full-success outcome, and then, absent the budget abort, it
works through every target and returns the partial/zero outcome with the
final step count and count of problems solved. -/
theorem c1_no_win_when_top10_unreachable (agents : Agents) (cutoff : ℚ)
    (stream : ℕ → ℚ) (q : ℕ) (e : TopEntry) :
    ∀ (slack : ℕ) (targets : List ℕ) (ns tps pos : ℕ) (top : TopDict),
    (q, e) ∈ top → e.solved = false → q ∉ targets →
    is_win_outcome (solveGo agents cutoff stream slack targets ns tps pos top) = false
    ∧ (solveGo agents cutoff stream slack targets ns tps pos top ≠ .budget →
      is_incomplete_outcome (solveGo agents cutoff stream slack targets ns tps pos top)
        = true) := by
  intro slack
  induction slack with
  | zero =>
    intro targets ns tps pos top hm hs hq
    cases targets <;> simp [solveGo, is_win_outcome, is_incomplete_outcome]
  | succ n ih =>
    intro targets ns tps pos top hm hs hq
    cases targets with
    | nil => simp [solveGo, is_win_outcome, is_incomplete_outcome]
    | cons p rest =>
      have hqp : q ≠ p := fun h => hq (h ▸ List.mem_cons_self p rest)
      have hqrest : q ∉ rest := fun h => hq (List.mem_cons_of_mem _ h)
      cases h : ask_for_solve agents (cohortFor agents cutoff p) p
          (attemptDraws stream pos (cohortFor agents cutoff p).length) top with
      | win =>
        exfalso
        have hsolved : e.solved = true :=
          check_for_win_mem (ask_for_solve_win_cfw h) (mem_markSolved_of_ne hm hqp)
        rw [hs] at hsolved
        exact Bool.false_ne_true hsolved
      | cont b top2 =>
        cases b with
        | true =>
          have ht2 : top2 = markSolved top p := ask_for_solve_cont_true h
          simp only [solveGo, h]
          exact ih rest (ns + 1) (tps + 1) (pos + (cohortFor agents cutoff p).length)
            top2 (ht2 ▸ mem_markSolved_of_ne hm hqp) hs hqrest
        | false =>
          have ht2 : top2 = top := ask_for_solve_cont_false h
          simp only [solveGo, h]
          exact ih (p :: rest) (ns + 1) tps (pos + (cohortFor agents cutoff p).length)
            top2 (ht2 ▸ hm) hs hq

/-- Witness for C1's amended theorem: problem 1 is tracked, unsolved and not
among the targets, so the concrete call can never return full success. -/
theorem c1_no_win_witness :
    is_win_outcome (solveGo agents_inexpert (1 / 2) (fun _ => 0) 3 [2] 0 0 0
      [(1, ⟨5, false⟩)]) = false
    ∧ (solveGo agents_inexpert (1 / 2) (fun _ => 0) 3 [2] 0 0 0
        [(1, ⟨5, false⟩)] ≠ .budget →
      is_incomplete_outcome (solveGo agents_inexpert (1 / 2) (fun _ => 0) 3 [2] 0 0 0
        [(1, ⟨5, false⟩)]) = true) :=
  c1_no_win_when_top10_unreachable agents_inexpert (1 / 2) (fun _ => 0) 1 ⟨5, false⟩
    3 [2] 0 0 0 [(1, ⟨5, false⟩)] (by decide) (by decide) (by decide)

/-! ## C10: zero-expertise cohorts can only end in the budget sentinel -/

/-- A rounded nonnegative draw is nonnegative. -/
theorem round4_nonneg {d : ℚ} (h : 0 ≤ d) : 0 ≤ round4 d := by
  unfold round4
  apply div_nonneg _ (by norm_num)
  have h2 : (0 : ℤ) ≤ round (d * 10000) := by
    rw [round_eq]
    exact Int.le_floor.2 (by push_cast; linarith)
  exact_mod_cast h2

/-- If no asked agent can pass its expertise test, the tally is all
failures. -/
theorem tally_all_fail (agents : Agents) (problem : ℕ) :
    ∀ (l : List (ℕ × ℚ)) (a b : ℕ),
    (∀ ad ∈ l, ¬ round4 ad.2 < agents.expertise ad.1 problem) →
    l.foldl (fun acc ad =>
      if round4 ad.2 < agents.expertise ad.1 problem then (acc.1 + 1, acc.2)
      else (acc.1, acc.2 + 1)) (a, b) = (a, b + l.length) := by
  intro l
  induction l with
  | nil => simp
  | cons x xs ih =>
    intro a b h
    simp only [List.foldl_cons, if_neg (h x (List.mem_cons_self _ _))]
    rw [ih _ _ (fun ad had => h ad (List.mem_cons_of_mem _ had))]
    simp only [List.length_cons]
    congr 1
    omega

/-- C10: with nonnegative uniform draws, a cohort member whose expertise for
the problem is `0` is always counted among the failing members (first
conjunct: for a population whose expertise for `p` is identically zero no
attempt on `p` can ever succeed, whatever cohort of it votes), so a
resolution call that reaches such a problem loops on it until the budget
sentinel `[-1]` (second conjunct). -/
theorem c10_zero_expertise_only_budget (agents : Agents) (p : ℕ)
    (stream : ℕ → ℚ) (cutoff : ℚ)
    (hE : ∀ a, agents.expertise a p = 0) (hs : ∀ n, 0 ≤ stream n) :
    (∀ (cohort : List ℕ) (draws : List ℚ) (top : TopDict),
      (∀ d ∈ draws, 0 ≤ d) →
      ask_for_solve agents cohort p draws top = .cont false top)
    ∧ ∀ (slack : ℕ) (rest : List ℕ) (ns tps pos : ℕ) (top : TopDict),
      solveGo agents cutoff stream slack (p :: rest) ns tps pos top = .budget := by
  have hfail : ∀ (cohort : List ℕ) (draws : List ℚ) (top : TopDict),
      (∀ d ∈ draws, 0 ≤ d) →
      ask_for_solve agents cohort p draws top = .cont false top := by
    intro cohort draws top hd
    have htal : tallyVotes agents cohort p draws = (0, 0 + (cohort.zip draws).length) := by
      unfold tallyVotes
      apply tally_all_fail
      intro ad had
      rw [hE ad.1]
      exact not_lt.2 (round4_nonneg (hd _ (List.of_mem_zip had).2))
    simp [ask_for_solve, htal]
  refine ⟨hfail, ?_⟩
  intro slack
  induction slack with
  | zero => intro rest ns tps pos top; simp [solveGo]
  | succ n ih =>
    intro rest ns tps pos top
    have hdr : ∀ d ∈ attemptDraws stream pos (cohortFor agents cutoff p).length, 0 ≤ d := by
      intro d hd
      obtain ⟨i, _, rfl⟩ := List.mem_map.1 hd
      exact hs _
    simp only [solveGo, hfail _ _ _ hdr]
    exact ih rest (ns + 1) tps (pos + (cohortFor agents cutoff p).length) top

/-- Witness for C10: one zero-expertise agent, one target problem: the call
reaches the budget sentinel. -/
theorem c10_witness :
    solveGo agents_inexpert 0 (fun _ => 0) 7 [3] 0 0 0 [] = .budget :=
  (c10_zero_expertise_only_budget agents_inexpert 3 (fun _ => 0) 0
    (fun _ => rfl) (fun _ => le_refl 0)).2 7 [] 0 0 0 []

/-! ## C5: one draw per member, strict-majority rule, ties fail -/

/-- The tally fold counts exactly the members whose own rounded draw is
below their own expertise (successes) and the rest (failures). -/
theorem tally_counts (agents : Agents) (problem : ℕ) :
    ∀ (l : List (ℕ × ℚ)) (a b : ℕ),
    l.foldl (fun acc ad =>
      if round4 ad.2 < agents.expertise ad.1 problem then (acc.1 + 1, acc.2)
      else (acc.1, acc.2 + 1)) (a, b)
    = (a + l.countP (fun ad => decide (round4 ad.2 < agents.expertise ad.1 problem)),
       b + (l.length
         - l.countP (fun ad => decide (round4 ad.2 < agents.expertise ad.1 problem)))) := by
  intro l
  induction l with
  | nil => simp
  | cons x xs ih =>
    intro a b
    have hle := List.countP_le_length
      (p := fun ad => decide (round4 ad.2 < agents.expertise ad.1 problem)) (l := xs)
    rw [List.foldl_cons]
    by_cases h : round4 x.2 < agents.expertise x.1 problem
    · have hcount : (x :: xs).countP
          (fun ad => decide (round4 ad.2 < agents.expertise ad.1 problem))
          = xs.countP (fun ad => decide (round4 ad.2 < agents.expertise ad.1 problem)) + 1 := by
        simp [List.countP_cons, h]
      rw [if_pos h, ih, hcount, List.length_cons]
      congr 1 <;> omega
    · have hcount : (x :: xs).countP
          (fun ad => decide (round4 ad.2 < agents.expertise ad.1 problem))
          = xs.countP (fun ad => decide (round4 ad.2 < agents.expertise ad.1 problem)) := by
        simp [List.countP_cons, h]
      rw [if_neg h, ih, hcount, List.length_cons]
      congr 1
      omega

/-- An attempt counts as solved exactly when successes strictly outnumber
failures. -/
theorem attempt_solves_iff (agents : Agents) (c : List ℕ) (p : ℕ)
    (d : List ℚ) (top : TopDict) :
    attempt_solves (ask_for_solve agents c p d top) = true
      ↔ (tallyVotes agents c p d).1 > (tallyVotes agents c p d).2 := by
  by_cases h : (tallyVotes agents c p d).1 > (tallyVotes agents c p d).2
  · simp only [ask_for_solve, if_pos h]
    cases hc : check_for_win (markSolved top p) <;> simp [hc, attempt_solves, h]
  · simp [ask_for_solve, if_neg h, attempt_solves, h]

/-- C5: in a solve attempt over `cohort` with one uniform draw per member
(`draws.length = cohort.length`), the success count is exactly the number of
members whose own rounded draw is below their own expertise for the problem,
the failure count is the rest of the cohort, the attempt solves the problem
iff successes strictly exceed half the cohort (strict majority), and an
exact tie (successes = half of an even cohort) fails. -/
theorem c5_majority_rule (agents : Agents) (cohort : List ℕ) (problem : ℕ)
    (draws : List ℚ) (top : TopDict) (h : draws.length = cohort.length) :
    (tallyVotes agents cohort problem draws).1
      = (cohort.zip draws).countP
          (fun ad => decide (round4 ad.2 < agents.expertise ad.1 problem))
    ∧ (tallyVotes agents cohort problem draws).2
      = cohort.length - (tallyVotes agents cohort problem draws).1
    ∧ (attempt_solves (ask_for_solve agents cohort problem draws top) = true
        ↔ 2 * (tallyVotes agents cohort problem draws).1 > cohort.length)
    ∧ (cohort.length = 2 * (tallyVotes agents cohort problem draws).1
        → attempt_solves (ask_for_solve agents cohort problem draws top) = false) := by
  have hzlen : (cohort.zip draws).length = cohort.length := by
    rw [List.length_zip, h, Nat.min_self]
  have htal : tallyVotes agents cohort problem draws
      = ((cohort.zip draws).countP
          (fun ad => decide (round4 ad.2 < agents.expertise ad.1 problem)),
         cohort.length
           - (cohort.zip draws).countP
              (fun ad => decide (round4 ad.2 < agents.expertise ad.1 problem))) := by
    unfold tallyVotes
    rw [tally_counts]
    simp [hzlen]
  have hle : (cohort.zip draws).countP
      (fun ad => decide (round4 ad.2 < agents.expertise ad.1 problem))
      ≤ cohort.length := hzlen ▸ List.countP_le_length _
  refine ⟨by rw [htal], by rw [htal], ?_, ?_⟩
  · rw [attempt_solves_iff, htal]
    constructor <;> intro hgt <;> simp only at hgt ⊢ <;> omega
  · intro htie
    rw [htal] at htie
    simp only at htie
    have : ¬ (tallyVotes agents cohort problem draws).1
        > (tallyVotes agents cohort problem draws).2 := by
      rw [htal]
      simp only [gt_iff_lt, not_lt]
      omega
    rw [Bool.eq_false_iff]
    intro hT
    exact this ((attempt_solves_iff agents cohort problem draws top).1 hT)

/-- Witness for C5's tie clause: a two-member cohort with exactly one
success does not solve the problem. -/
theorem c5_majority_rule_witness :
    attempt_solves (ask_for_solve agents_mixed [1, 2] 1 [0, 0] []) = false :=
  (c5_majority_rule agents_mixed [1, 2] 1 [0, 0] [] (by decide)).2.2.2 (by decide)

/-! ## Discovery episodes: C3 (episode sizes) and C4 (budget overrun is an
uncaught exception) -/

/-- The episode's step count, when the episode returned normally. -/
def episodeSteps (r : Except PyError (List ℕ × ℕ × KnownPrefs × List (ℕ × ℚ))) :
    Option ℕ :=
  match r with
  | .ok x => some x.2.1
  | .error _ => none

/-- If the whole episode fits in the budget, the ask loop performs all its
asks and returns the final step count. -/
theorem askLoop_ok (agents : Agents) (maxSteps : ℕ) :
    ∀ (rem steps agentid : ℕ) (kp : KnownPrefs), steps + rem ≤ maxSteps →
    ∃ kp2, askLoop agents maxSteps rem steps agentid kp = .ok (kp2, steps + rem) := by
  intro rem
  induction rem with
  | zero => intro steps agentid kp h; exact ⟨kp, by simp [askLoop]⟩
  | succ n ih =>
    intro steps agentid kp h
    have hb : ¬ steps + 1 > maxSteps := by omega
    obtain ⟨kp2, hk⟩ := ih (steps + 1)
      (if agentid + 1 > agents.keys.length then agentid + 1 - agents.keys.length
       else agentid + 1)
      (ask_for_preference agentid agents kp) (by omega)
    have harith : steps + 1 + n = steps + (n + 1) := by omega
    rw [harith] at hk
    exact ⟨kp2, by simp only [askLoop, if_neg hb]; exact hk⟩

/-- Once the episode-internal step counter is about to pass the budget, the
ask loop raises the `RuntimeError`, whose step count is `maxSteps + 1`. -/
theorem askLoop_overflow (agents : Agents) (maxSteps : ℕ) :
    ∀ (rem steps agentid : ℕ) (kp : KnownPrefs),
    steps ≤ maxSteps → steps + rem > maxSteps →
    askLoop agents maxSteps rem steps agentid kp
      = .error (.runtime (maxSteps + 1)) := by
  intro rem
  induction rem with
  | zero => intro steps agentid kp h1 h2; exact absurd h2 (by omega)
  | succ n ih =>
    intro steps agentid kp h1 h2
    by_cases hb : steps + 1 > maxSteps
    · have hs : steps + 1 = maxSteps + 1 := by omega
      simp only [askLoop, hs]
      rw [if_pos (by omega : maxSteps + 1 > maxSteps)]
    · simp only [askLoop, if_neg hb]
      exact ih (steps + 1) _ _ (by omega) (by omega)

/-- An episode that fits in the budget performs exactly its requested number
of asks (the returned step count). -/
theorem pap_steps (agents : Agents) (N : ℕ) (kp : KnownPrefs) (hyp : List ℕ)
    (log : List (ℕ × ℚ)) (h : N ≤ (agents.prefs 1).length * 100) :
    episodeSteps (paradox_ask_preferences agents N kp hyp log) = some N := by
  obtain ⟨kp2, hk⟩ := askLoop_ok agents ((agents.prefs 1).length * 100) N 0 1 kp
    (by omega)
  rw [Nat.zero_add] at hk
  simp only [paradox_ask_preferences, hk, episodeSteps]

/-- An episode asked to do more than `100 × P` asks raises the
`RuntimeError` at step `100 × P + 1`. -/
theorem pap_overflow (agents : Agents) (N : ℕ) (kp : KnownPrefs) (hyp : List ℕ)
    (log : List (ℕ × ℚ)) (hN : N > (agents.prefs 1).length * 100) :
    paradox_ask_preferences agents N kp hyp log
      = .error (.runtime ((agents.prefs 1).length * 100 + 1)) := by
  have h := askLoop_overflow agents ((agents.prefs 1).length * 100) N 0 1 kp
    (by omega) (by omega)
  simp only [paradox_ask_preferences, h]

/-- A failing episode makes the whole search call fail: the exception is
propagated, not converted. -/
theorem search_error_step (agents : Agents) (fuel n : ℕ) (kp : KnownPrefs)
    (tk hyp : List ℕ) (steps : ℕ) (log : List (ℕ × ℚ)) (e : PyError)
    (h : paradox_ask_preferences agents (preference_search_steps n) kp hyp log
      = .error e) :
    search_for_top_preferences agents (fuel + 1) n kp tk hyp steps log
      = .error e := by
  simp only [search_for_top_preferences, h]

/-- A failing search makes the two-layered strategy call fail: `paradox_solve`
has no handler, so the exception escapes to its caller. -/
theorem paradox_solve_search_error (agents : Agents) (A P : ℕ) (top : TopDict)
    (fuel : ℕ) (stream : ℕ → ℚ) (e : PyError)
    (h : search_for_top_preferences agents fuel (starting_steps A P) (fun _ => [])
      (top.map Prod.fst) [] 0 [] = .error e) :
    paradox_solve agents A P top fuel stream = .error e := by
  simp only [paradox_solve, h]

/-- The four-agent four-problem population used in discovery witnesses. -/
def agents4 : Agents :=
  ⟨[1, 2, 3, 4],
   fun a => [(1, (a : ℚ)), (2, (a : ℚ) / 2), (3, (a : ℚ) / 3), (4, (a : ℚ) / 4)],
   fun _ _ => 0⟩

/-- C3 counterexample: in the discovery run with `P = A = 4` the first
episode performs `episode_size 4 4 0 = 3` asks (the first search call
already halves its `max(P, A)` argument, line 236), not the claimed
`max(P, A) = 4` asks. -/
theorem c3_counterexample :
    episode_size 4 4 0 = 3
    ∧ (3 : ℕ) ≠ max 4 4
    ∧ episodeSteps (paradox_ask_preferences agents4 (episode_size 4 4 0)
        (fun _ => []) [] []) = some 3 := by
  refine ⟨by decide, by decide, by decide⟩

/-- C3 as amended: the first episode of a discovery run consists of
`floor(max(P, A) / 2) + 1` asks, each later episode of
`floor(previous episode size / 2) + 1` asks, and an episode that fits in the
`100 × P` budget indeed performs exactly its scheduled number of asks. -/
theorem c3_episode_size_schedule (A P : ℕ) (agents : Agents) (k N : ℕ)
    (kp : KnownPrefs) (hyp : List ℕ) (log : List (ℕ × ℚ)) :
    episode_size A P 0 = max P A / 2 + 1
    ∧ episode_size A P (k + 1) = episode_size A P k / 2 + 1
    ∧ (N ≤ (agents.prefs 1).length * 100 →
      episodeSteps (paradox_ask_preferences agents N kp hyp log) = some N) := by
  have hst : starting_steps A P = max P A := by
    unfold starting_steps
    split <;> omega
  refine ⟨?_, rfl, fun h => pap_steps agents N kp hyp log h⟩
  show preference_search_steps (episode_arg A P 0) = max P A / 2 + 1
  rw [show episode_arg A P 0 = starting_steps A P from rfl, hst]
  rfl

/-- Witness for C3's amended schedule at `P = A = 4` and a five-ask episode. -/
theorem c3_episode_size_witness :
    episode_size 4 4 0 = max 4 4 / 2 + 1
    ∧ episode_size 4 4 1 = episode_size 4 4 0 / 2 + 1
    ∧ episodeSteps (paradox_ask_preferences agents4 5 (fun _ => []) [] [])
      = some 5 :=
  ⟨(c3_episode_size_schedule 4 4 agents4 0 5 (fun _ => []) [] []).1,
   (c3_episode_size_schedule 4 4 agents4 0 5 (fun _ => []) [] []).2.1,
   (c3_episode_size_schedule 4 4 agents4 0 5 (fun _ => []) [] []).2.2 (by decide)⟩

/-- 200 agents with a single problem each: the first discovery episode asks
`preference_search_steps (max 1 200) = 101` times, past the `100 × 1`
budget. -/
def agents200 : Agents :=
  ⟨(List.range 200).map (fun i => i + 1), fun _ => [(1, (1 : ℚ) / 2)],
   fun _ _ => 0⟩

/-- C4 counterexample: a two-layered strategy run in which discovery exceeds
its `100 × P` step budget: the result is the propagated `RuntimeError`
(here at step 101) — an uncaught exception — not a tagged budget outcome
like resolution's `[-1]`. -/
theorem c4_counterexample :
    paradox_solve agents200 200 1 [(1, ⟨1, false⟩)] 1 (fun _ => 0)
      = .error (.runtime 101) :=
  paradox_solve_search_error agents200 200 1 [(1, ⟨1, false⟩)] 1 (fun _ => 0)
    (.runtime 101)
    (search_error_step agents200 0 (starting_steps 200 1) (fun _ => [])
      ([(1, ⟨1, false⟩)].map Prod.fst) [] 0 [] (.runtime 101)
      (pap_overflow agents200 (preference_search_steps (starting_steps 200 1))
        (fun _ => []) [] [] (by decide)))

/-- C4 as amended: when an episode is asked to spend more than `100 × P`
steps, `paradox_ask_preferences` raises the `RuntimeError` (at step
`100 × P + 1`), and when this happens in a two-layered strategy run the
error propagates uncaught through `search_for_top_preferences` and
`paradox_solve` — the strategy's caller sees the exception, never a tagged
`[-1]`-style value. -/
theorem c4_discovery_budget_is_uncaught_error (agents : Agents) (N : ℕ)
    (kp : KnownPrefs) (hyp : List ℕ) (log : List (ℕ × ℚ)) (A P fuel : ℕ)
    (top : TopDict) (stream : ℕ → ℚ)
    (hN : N > (agents.prefs 1).length * 100) :
    paradox_ask_preferences agents N kp hyp log
      = .error (.runtime ((agents.prefs 1).length * 100 + 1))
    ∧ (preference_search_steps (starting_steps A P) > (agents.prefs 1).length * 100 →
      paradox_solve agents A P top (fuel + 1) stream
        = .error (.runtime ((agents.prefs 1).length * 100 + 1))) := by
  refine ⟨pap_overflow agents N kp hyp log hN, fun h2 => ?_⟩
  exact paradox_solve_search_error agents A P top (fuel + 1) stream _
    (search_error_step agents fuel (starting_steps A P) (fun _ => [])
      (top.map Prod.fst) [] 0 [] _ (pap_overflow agents _ (fun _ => []) [] [] h2))

/-- Witness for C4's amended theorem on the 200-agent, one-problem
population (strategy entry called with `A = 202` to vary the instance). -/
theorem c4_uncaught_error_witness :
    paradox_ask_preferences agents200 101 (fun _ => []) [] []
      = .error (.runtime 101)
    ∧ paradox_solve agents200 202 1 [(1, ⟨1, false⟩)] 1 (fun _ => 0)
      = .error (.runtime 101) :=
  ⟨(c4_discovery_budget_is_uncaught_error agents200 101 (fun _ => []) [] []
      202 1 0 [(1, ⟨1, false⟩)] (fun _ => 0) (by decide)).1,
   (c4_discovery_budget_is_uncaught_error agents200 101 (fun _ => []) [] []
      202 1 0 [(1, ⟨1, false⟩)] (fun _ => 0) (by decide)).2 (by decide)⟩

/-! ## C7: weights are a permutation of `{1..P}`; the flagged top-10 are the
ten heaviest problems -/

/-- The weight sequence `t, t - 1, ..., t - n + 1` handed out by the loop of
lines 47-52 (`total` decrements once per problem). -/
def descend : ℤ → ℕ → List ℤ
  | _, 0 => []
  | t, n + 1 => t :: descend (t - 1) n

/-- The consecutive integers `s, s + 1, ..., s + n - 1`, used to state
"the weights are a permutation of `{1..P}`". -/
def ascend : ℤ → ℕ → List ℤ
  | _, 0 => []
  | s, n + 1 => s :: ascend (s + 1) n

theorem descend_length (t : ℤ) (n : ℕ) : (descend t n).length = n := by
  induction n generalizing t with
  | zero => rfl
  | succ m ih => simp [descend, ih]

theorem ascend_snoc (n : ℕ) : ∀ s : ℤ, ascend s (n + 1) = ascend s n ++ [s + n] := by
  induction n with
  | zero => intro s; simp [ascend]
  | succ m ih =>
    intro s
    rw [show ascend s (m + 2) = s :: ascend (s + 1) (m + 1) from rfl, ih (s + 1)]
    have : s + 1 + (m : ℤ) = s + ((m : ℕ) + 1 : ℕ) := by push_cast; ring
    rw [this]
    rfl

theorem descend_perm_ascend (n : ℕ) :
    ∀ t : ℤ, (descend t n).Perm (ascend (t - n + 1) n) := by
  induction n with
  | zero => intro t; simp [descend, ascend]
  | succ m ih =>
    intro t
    have step1 : (descend t (m + 1)).Perm (t :: ascend (t - m) m) := by
      rw [show descend t (m + 1) = t :: descend (t - 1) m from rfl]
      refine List.Perm.cons t ?_
      have := ih (t - 1)
      have harg : t - 1 - (m : ℤ) + 1 = t - m := by ring
      rwa [harg] at this
    have step2 : (t :: ascend (t - m) m).Perm (ascend (t - m) m ++ [t]) :=
      (List.perm_append_singleton t (ascend (t - m) m)).symm
    have step3 : ascend (t - (m : ℤ)) m ++ [t]
        = ascend (t - ((m : ℕ) + 1 : ℕ) + 1) (m + 1) := by
      have harg : t - ((m : ℕ) + 1 : ℕ) + 1 = t - (m : ℤ) := by push_cast; ring
      rw [harg, ascend_snoc m (t - (m : ℤ))]
      congr 2
      ring
    exact step3 ▸ (step1.trans step2)

theorem ascend_eq_map_range (n : ℕ) :
    ∀ s : ℤ, ascend s n = List.map (fun i : ℕ => s + (i : ℤ)) (List.range n) := by
  induction n with
  | zero => intro s; rfl
  | succ m ih =>
    intro s
    rw [show ascend s (m + 1) = s :: ascend (s + 1) m from rfl, ih (s + 1),
      List.range_succ_eq_map, List.map_cons, List.map_map]
    congr 1
    · simp
    · apply List.map_congr_left
      intro i _
      simp only [Function.comp_apply]
      push_cast
      ring

theorem descend_mem {t : ℤ} {n : ℕ} : ∀ x ∈ descend t n, t - n < x ∧ x ≤ t := by
  induction n generalizing t with
  | zero => intro x hx; exact absurd hx (by simp [descend])
  | succ m ih =>
    intro x hx
    rw [show descend t (m + 1) = t :: descend (t - 1) m from rfl] at hx
    rcases List.mem_cons.mp hx with h | h
    · subst h
      constructor
      · push_cast
        omega
      · exact le_refl x
    · obtain ⟨h1, h2⟩ := ih x h
      constructor
      · push_cast at h1 ⊢
        omega
      · omega

theorem descend_take (k : ℕ) :
    ∀ (n : ℕ) (t : ℤ), (descend t n).take k = descend t (min k n) := by
  induction k with
  | zero => intro n t; simp [descend]
  | succ j ih =>
    intro n t
    cases n with
    | zero => simp [descend]
    | succ m =>
      rw [show descend t (m + 1) = t :: descend (t - 1) m from rfl,
        List.take_succ_cons, ih m (t - 1), Nat.succ_min_succ]
      rfl

theorem descend_drop (k : ℕ) :
    ∀ (n : ℕ) (t : ℤ), (descend t n).drop k = descend (t - k) (n - k) := by
  induction k with
  | zero => intro n t; simp
  | succ j ih =>
    intro n t
    cases n with
    | zero => simp [descend]
    | succ m =>
      rw [show descend t (m + 1) = t :: descend (t - 1) m from rfl, List.drop_succ_cons,
        ih m (t - 1)]
      congr 1
      · push_cast
        ring
      · omega

theorem buildDicts_fst (l : List ℕ) :
    ∀ (t : ℤ) (c : ℕ), (buildDicts l t c).1 = l.zip (descend t l.length) := by
  induction l with
  | nil => intro t c; rfl
  | cons p rest ih =>
    intro t c
    simp only [List.length_cons]
    rw [show descend t (rest.length + 1) = t :: descend (t - 1) rest.length from rfl]
    show (p, t) :: (buildDicts rest (t - 1) (if c < 10 then c + 1 else c)).1 = _
    rw [ih (t - 1) (if c < 10 then c + 1 else c)]
    rfl

theorem buildDicts_snd (l : List ℕ) :
    ∀ (t : ℤ) (c : ℕ), (buildDicts l t c).2
      = ((l.zip (descend t l.length)).take (10 - c)).map
          (fun e => (e.1, (⟨e.2, false⟩ : TopEntry))) := by
  induction l with
  | nil => intro t c; simp [buildDicts]
  | cons p rest ih =>
    intro t c
    simp only [List.length_cons]
    rw [show descend t (rest.length + 1) = t :: descend (t - 1) rest.length from rfl]
    by_cases hc : c < 10
    · have hred : (buildDicts (p :: rest) t c).2
          = (p, (⟨t, false⟩ : TopEntry)) :: (buildDicts rest (t - 1) (c + 1)).2 := by
        simp only [buildDicts, if_pos hc]
      rw [hred, ih (t - 1) (c + 1)]
      have h10 : 10 - c = (10 - (c + 1)) + 1 := by omega
      rw [h10, List.zip_cons_cons, List.take_succ_cons]
      rfl
    · have hred : (buildDicts (p :: rest) t c).2 = (buildDicts rest (t - 1) c).2 := by
        simp only [buildDicts, if_neg hc]
      rw [hred, ih (t - 1) c]
      have h10 : 10 - c = 0 := by omega
      rw [h10]
      simp

/-- A pair in a prefix of a zip has its second component in the same prefix
of the second list. -/
theorem mem_take_zip_snd {α β : Type} :
    ∀ (l : List α) (m : List β) (k : ℕ) (x : α × β),
    x ∈ (l.zip m).take k → x.2 ∈ m.take k := by
  intro l
  induction l with
  | nil => intro m k x hx; simp at hx
  | cons a l2 ih =>
    intro m k x hx
    cases m with
    | nil => simp at hx
    | cons b m2 =>
      cases k with
      | zero => simp at hx
      | succ j =>
        rw [List.zip_cons_cons, List.take_succ_cons] at hx
        rw [List.take_succ_cons]
        rcases List.mem_cons.mp hx with h | h
        · rw [h]
          exact List.mem_cons_self _ _
        · exact List.mem_cons_of_mem _ (ih m2 j x h)

/-- A pair in a suffix of a zip has its second component in the same suffix
of the second list. -/
theorem mem_drop_zip_snd {α β : Type} :
    ∀ (l : List α) (m : List β) (k : ℕ) (x : α × β),
    x ∈ (l.zip m).drop k → x.2 ∈ m.drop k := by
  intro l
  induction l with
  | nil => intro m k x hx; simp at hx
  | cons a l2 ih =>
    intro m k x hx
    cases m with
    | nil => simp at hx
    | cons b m2 =>
      cases k with
      | zero =>
        simp only [List.drop_zero] at hx ⊢
        exact (List.of_mem_zip hx).2
      | succ j =>
        rw [List.zip_cons_cons, List.drop_succ_cons] at hx
        rw [List.drop_succ_cons]
        exact ih m2 j x hx

/-- C7: for a generated problem set over a shuffled list of `P` problem
names (`P ≥ 10`), the `P` assigned weights are exactly a permutation of
`{1, ..., P}`, the flagged top set is the first ten problems of the
iteration order with their weights and `solved = false`, it has exactly ten
entries, and every flagged problem's weight strictly exceeds every
unflagged problem's weight — the flagged set is exactly the ten heaviest
problems. -/
theorem c7_weights_and_top10 (shuffled : List ℕ) (P : ℕ)
    (hlen : shuffled.length = P) (hP : 10 ≤ P) :
    ((create_problems_dict shuffled P).1.map Prod.snd).Perm
        (List.map (fun i : ℕ => (i : ℤ) + 1) (List.range P))
    ∧ (create_problems_dict shuffled P).2
        = ((create_problems_dict shuffled P).1.take 10).map
            (fun e => (e.1, (⟨e.2, false⟩ : TopEntry)))
    ∧ (create_problems_dict shuffled P).2.length = 10
    ∧ ∀ e ∈ (create_problems_dict shuffled P).1.take 10,
        ∀ f ∈ (create_problems_dict shuffled P).1.drop 10, f.2 < e.2 := by
  have hfst : (create_problems_dict shuffled P).1
      = shuffled.zip (descend (P : ℤ) P) := by
    unfold create_problems_dict
    rw [buildDicts_fst, hlen]
  have hlen2 : (descend (P : ℤ) P).length = P := descend_length _ _
  have hmapsnd : (shuffled.zip (descend (P : ℤ) P)).map Prod.snd
      = descend (P : ℤ) P :=
    List.map_snd_zip shuffled (descend (P : ℤ) P) (by rw [hlen, hlen2])
  have hsnd : (create_problems_dict shuffled P).2
      = ((shuffled.zip (descend (P : ℤ) P)).take 10).map
          (fun e => (e.1, (⟨e.2, false⟩ : TopEntry))) := by
    unfold create_problems_dict
    rw [buildDicts_snd, hlen]
  refine ⟨?_, ?_, ?_, ?_⟩
  · rw [hfst, hmapsnd]
    have h2 : ascend 1 P = List.map (fun i : ℕ => (i : ℤ) + 1) (List.range P) := by
      rw [ascend_eq_map_range]
      apply List.map_congr_left
      intro i _
      ring
    have h1 := descend_perm_ascend P ((P : ℤ))
    rw [show (P : ℤ) - P + 1 = 1 by ring] at h1
    rw [← h2]
    exact h1
  · rw [hsnd, hfst]
  · rw [hsnd]
    simp only [List.length_map, List.length_take, List.length_zip, hlen, hlen2]
    omega
  · intro e he f hf
    rw [hfst] at he hf
    have he2 : e.2 ∈ (descend (P : ℤ) P).take 10 := mem_take_zip_snd _ _ _ _ he
    have hf2 : f.2 ∈ (descend (P : ℤ) P).drop 10 := mem_drop_zip_snd _ _ _ _ hf
    rw [descend_take, show min 10 P = 10 from by omega] at he2
    rw [descend_drop] at hf2
    have hb1 := (descend_mem e.2 he2).1
    have hb2 := (descend_mem f.2 hf2).2
    push_cast at hb1 hb2
    omega

/-- Witness for C7 on a concrete shuffled 12-problem set: the weight
multiset is `{1..12}`, the flagged set is the ten heaviest (e.g. problem 5,
weight 12, strictly outweighs the unflagged problem 10, weight 1). -/
theorem c7_weights_and_top10_witness :
    ((create_problems_dict [5, 3, 8, 1, 9, 2, 12, 6, 4, 7, 11, 10] 12).1.map
        Prod.snd).Perm
      (List.map (fun i : ℕ => (i : ℤ) + 1) (List.range 12))
    ∧ (create_problems_dict [5, 3, 8, 1, 9, 2, 12, 6, 4, 7, 11, 10] 12).2
      = ((create_problems_dict [5, 3, 8, 1, 9, 2, 12, 6, 4, 7, 11, 10] 12).1.take
          10).map (fun e => (e.1, (⟨e.2, false⟩ : TopEntry)))
    ∧ (create_problems_dict [5, 3, 8, 1, 9, 2, 12, 6, 4, 7, 11, 10] 12).2.length = 10
    ∧ ((10, (1 : ℤ)).2 < ((5, (12 : ℤ)).2)) :=
  ⟨(c7_weights_and_top10 [5, 3, 8, 1, 9, 2, 12, 6, 4, 7, 11, 10] 12 (by decide)
      (by decide)).1,
   (c7_weights_and_top10 [5, 3, 8, 1, 9, 2, 12, 6, 4, 7, 11, 10] 12 (by decide)
      (by decide)).2.1,
   (c7_weights_and_top10 [5, 3, 8, 1, 9, 2, 12, 6, 4, 7, 11, 10] 12 (by decide)
      (by decide)).2.2.1,
   (c7_weights_and_top10 [5, 3, 8, 1, 9, 2, 12, 6, 4, 7, 11, 10] 12 (by decide)
      (by decide)).2.2.2 (5, 12) (by decide) (10, 1) (by decide)⟩

/-! ## C8: per-problem preference sums are within `A × 0.05` of the weight -/

/-- One-decimal rounding moves a value by at most `1/20 = 0.05`. -/
theorem abs_round1_sub (x : ℚ) : |round1 x - x| ≤ 1 / 20 := by
  have h := abs_sub_round (x * 10)
  have h2 : |((round (x * 10) : ℤ) : ℚ) - x * 10| ≤ 1 / 2 := by
    rwa [abs_sub_comm] at h
  have heq : round1 x - x = ((round (x * 10) : ℤ) - x * 10) / 10 := by
    unfold round1
    ring
  rw [heq, abs_div, show |(10 : ℚ)| = 10 by norm_num]
  linarith

/-- Rounding each summand moves a sum by at most `length × 1/20`. -/
theorem sum_map_round1_close (g : ℚ → ℚ) :
    ∀ l : List ℚ,
    |(l.map (fun r => round1 (g r))).sum - (l.map g).sum|
      ≤ (l.length : ℚ) * (1 / 20) := by
  intro l
  induction l with
  | nil => simp
  | cons a t ih =>
    simp only [List.map_cons, List.sum_cons, List.length_cons]
    have h1 := abs_round1_sub (g a)
    have htri : |round1 (g a) + (t.map (fun r => round1 (g r))).sum
        - (g a + (t.map g).sum)|
        ≤ |round1 (g a) - g a|
          + |(t.map (fun r => round1 (g r))).sum - (t.map g).sum| := by
      have hre : round1 (g a) + (t.map (fun r => round1 (g r))).sum
          - (g a + (t.map g).sum)
          = (round1 (g a) - g a)
            + ((t.map (fun r => round1 (g r))).sum - (t.map g).sum) := by ring
      rw [hre]
      exact abs_add _ _
    have hcast : ((t.length + 1 : ℕ) : ℚ) = (t.length : ℚ) + 1 := by push_cast; ring
    rw [hcast]
    linarith

/-- Distributing the scaling over the sum of the raw draws. -/
theorem sum_map_div_mul (c w : ℚ) :
    ∀ l : List ℚ, (l.map (fun r => r / c * w)).sum = l.sum / c * w := by
  intro l
  induction l with
  | nil => simp
  | cons a t ih =>
    simp only [List.map_cons, List.sum_cons, ih]
    ring

/-- Reading a list back off by positions. -/
theorem map_getD_range (l : List ℚ) :
    List.map (fun i => l.getD i 0) (List.range l.length) = l := by
  induction l with
  | nil => rfl
  | cons a t ih =>
    rw [List.length_cons, List.range_succ_eq_map, List.map_cons, List.map_map]
    have htail : List.map ((fun i => (a :: t).getD i 0) ∘ Nat.succ)
        (List.range t.length) = t := by
      conv_rhs => rw [← ih]
      apply List.map_congr_left
      intro i _
      rfl
    rw [htail]
    rfl

/-- `list.index` can only find the value being visited at or before the
visiting position (the value sits there), so `l.indexOf l[i] ≤ i`: the
rounding loop never writes past its read cursor. -/
theorem indexOf_le_of_getElem (x : ℚ) :
    ∀ (l : List ℚ) (i : ℕ) (h : i < l.length), l[i] = x → l.indexOf x ≤ i := by
  intro l
  induction l with
  | nil => intro i h _; exact absurd h (by simp)
  | cons a t ih =>
    intro i h hx
    by_cases hax : a = x
    · subst hax
      rw [List.indexOf_cons_self]
      omega
    · cases i with
      | zero => exact absurd hx hax
      | succ i2 =>
        have hi2 : i2 < t.length := by simpa using h
        rw [List.indexOf_cons_ne _ (by simpa using hax)]
        have ht : t[i2] = x := by
          rw [← hx]
          simp
        exact Nat.succ_le_succ (ih i2 hi2 ht)

/-- Replacing one element shifts a sum by the difference. -/
theorem sum_set_of_lt :
    ∀ (l : List ℚ) (j : ℕ) (v : ℚ) (h : j < l.length),
    (l.set j v).sum = l.sum - l[j] + v := by
  intro l
  induction l with
  | nil => intro j v h; exact absurd h (by simp)
  | cons a t ih =>
    intro j v h
    cases j with
    | zero =>
      rw [List.set_cons_zero]
      simp only [List.sum_cons, List.getElem_cons_zero]
      ring
    | succ j2 =>
      rw [List.set_cons_succ]
      simp only [List.sum_cons, List.getElem_cons_succ,
        ih j2 v (by simpa using h)]
      ring

/-- The rounding loop preserves the list's length. -/
theorem roundLoop_length (denom W : ℚ) :
    ∀ (k i : ℕ) (l : List ℚ), (roundLoop denom W k i l).length = l.length := by
  intro k
  induction k with
  | zero => intro i l; rfl
  | succ k2 ih =>
    intro i l
    simp only [roundLoop]
    rw [ih]
    exact List.length_set l _ _

/-- Summand-wise rounding differences. -/
theorem sum_map_sub_self (g : ℚ → ℚ) :
    ∀ l : List ℚ, (l.map (fun r => g r - r)).sum = (l.map g).sum - l.sum := by
  intro l
  induction l with
  | nil => simp
  | cons a t ih =>
    simp only [List.map_cons, List.sum_cons, ih]
    ring

/-- The sum-tracking invariant of the in-place rounding loop (lines 73-75),
with NO side conditions on the draws: each iteration reads the original raw
draw at its position (writes never land past the read cursor, since
`list.index` finds the read value at or before it) and overwrites one
occurrence of that raw value with its rounded fraction — so even when
`list.index` aliases a wrong slot, the sum shifts by exactly the rounding
difference of that draw. -/
theorem roundLoop_sum (denom W : ℚ) (draws : List ℚ) :
    ∀ (k i : ℕ) (l : List ℚ),
    l.length = draws.length →
    l.drop i = draws.drop i →
    i + k = draws.length →
    (roundLoop denom W k i l).sum
      = l.sum
        + ((draws.drop i).map (fun r => round1 (r / denom * W) - r)).sum := by
  intro k
  induction k with
  | zero =>
    intro i l hlen hdrop hik
    have hi : i = draws.length := by omega
    subst hi
    show l.sum = _
    rw [List.drop_length]
    simp
  | succ k2 ih =>
    intro i l hlen hdrop hik
    have hlt : i < draws.length := by omega
    have hltl : i < l.length := by omega
    have hdropl : l.drop i = l[i] :: l.drop (i + 1) :=
      List.drop_eq_getElem_cons hltl
    have hdropd : draws.drop i = draws[i] :: draws.drop (i + 1) :=
      List.drop_eq_getElem_cons hlt
    have hheads := hdrop
    rw [hdropl, hdropd] at hheads
    have hread : l[i] = draws[i] := ((List.cons.injEq _ _ _ _).mp hheads).1
    have hdrop1 : l.drop (i + 1) = draws.drop (i + 1) :=
      ((List.cons.injEq _ _ _ _).mp hheads).2
    have hgetD : l.getD i 0 = draws[i] := by
      rw [List.getD_eq_getElem l 0 hltl, hread]
    have hmem : draws[i] ∈ l := by
      rw [← hread]
      exact List.getElem_mem hltl
    have hjlt : l.indexOf draws[i] < l.length := List.indexOf_lt_length.mpr hmem
    have hjle : l.indexOf draws[i] ≤ i :=
      indexOf_le_of_getElem draws[i] l i hltl hread
    have hval : l[l.indexOf draws[i]] = draws[i] := List.getElem_indexOf hjlt
    have hlen2 : (l.set (l.indexOf draws[i])
        (round1 (draws[i] / denom * W))).length = draws.length := by
      rw [List.length_set, hlen]
    have hdrop2 : (l.set (l.indexOf draws[i])
        (round1 (draws[i] / denom * W))).drop (i + 1) = draws.drop (i + 1) := by
      rw [List.drop_set, if_pos (by omega)]
      exact hdrop1
    have hsum2 : (l.set (l.indexOf draws[i])
        (round1 (draws[i] / denom * W))).sum
        = l.sum - draws[i] + round1 (draws[i] / denom * W) := by
      rw [sum_set_of_lt l _ _ hjlt, hval]
    simp only [roundLoop]
    rw [hgetD, ih (i + 1) _ hlen2 hdrop2 (by omega), hsum2, hdropd]
    simp only [List.map_cons, List.sum_cons]
    ring

/-- The rounded fractions produced for one problem sum to exactly the sum of
the pointwise-rounded scaled shares — unconditionally, aliasing included. -/
theorem preference_fractions_sum (draws : List ℚ) (W : ℚ) :
    (preference_fractions draws W).sum
      = (draws.map (fun r => round1 (r / draws.sum * W))).sum := by
  unfold preference_fractions
  rw [roundLoop_sum draws.sum W draws draws.length 0 draws rfl rfl (by omega),
    List.drop_zero, sum_map_sub_self]
  ring

/-- The rounded-fraction list has one entry per agent. -/
theorem preference_fractions_length (draws : List ℚ) (W : ℚ) :
    (preference_fractions draws W).length = draws.length := by
  unfold preference_fractions
  rw [roundLoop_length]

/-- C8: for one problem of weight `W`, the assigned preferences (drawn from
`A` raw uniforms, normalised, scaled and rounded to one decimal, then handed
to agents `1..A` in any shuffled key order) sum to within `A × 0.05` of `W`.
The only side condition is that the draws do not sum to zero — on all-zero
draws the source itself dies with a `ZeroDivisionError` on line 75.  The
`list.index` aliasing of lines 73-75 needs no exclusion: it can only
relocate rounded fractions, never change the produced sum. -/
theorem c8_preference_sum_tolerance (draws : List ℚ) (W : ℤ) (order : List ℕ)
    (hperm : order.Perm (List.map (fun i => i + 1) (List.range draws.length)))
    (hpos : 0 < draws.sum) :
    |((assign_preferences_problem order draws (W : ℚ)).map Prod.snd).sum - (W : ℚ)|
      ≤ (draws.length : ℚ) * (5 / 100) := by
  have hfrlen : (preference_fractions draws (W : ℚ)).length = draws.length :=
    preference_fractions_length draws (W : ℚ)
  have hmap : (assign_preferences_problem order draws (W : ℚ)).map Prod.snd
      = order.map (fun a => (preference_fractions draws (W : ℚ)).getD (a - 1) 0) := by
    unfold assign_preferences_problem
    rw [List.map_map]
    rfl
  have hpermsum : (order.map
        (fun a => (preference_fractions draws (W : ℚ)).getD (a - 1) 0)).sum
      = ((List.map (fun i => i + 1) (List.range draws.length)).map
          (fun a => (preference_fractions draws (W : ℚ)).getD (a - 1) 0)).sum :=
    (hperm.map _).sum_eq
  have hreindex : ((List.map (fun i => i + 1) (List.range draws.length)).map
        (fun a => (preference_fractions draws (W : ℚ)).getD (a - 1) 0))
      = List.map (fun i => (preference_fractions draws (W : ℚ)).getD i 0)
          (List.range draws.length) := by
    rw [List.map_map]
    apply List.map_congr_left
    intro i _
    simp
  have hsum : ((assign_preferences_problem order draws (W : ℚ)).map Prod.snd).sum
      = (preference_fractions draws (W : ℚ)).sum := by
    rw [hmap, hpermsum, hreindex, ← hfrlen, map_getD_range]
  have hexact : (draws.map (fun r => r / draws.sum * (W : ℚ))).sum = (W : ℚ) := by
    rw [sum_map_div_mul]
    rw [div_self (ne_of_gt hpos)]
    ring
  have hclose := sum_map_round1_close (fun r => r / draws.sum * (W : ℚ)) draws
  rw [hexact] at hclose
  rw [hsum, preference_fractions_sum]
  have h520 : (draws.length : ℚ) * (5 / 100) = (draws.length : ℚ) * (1 / 20) := by
    ring
  rw [h520]
  exact hclose

/-- Witness for C8: weight 3 split over two agents from draws `1/2, 1`,
shuffled key order `[2, 1]`.  This input makes `list.index` alias (the raw
draw `1` equals the first rounded fraction, so the loop produces `[2, 1]`
instead of the pointwise `[1, 2]`), yet the sum is exactly 3. -/
theorem c8_preference_sum_witness :
    |((assign_preferences_problem [2, 1] [1 / 2, 1] ((3 : ℤ) : ℚ)).map
        Prod.snd).sum - ((3 : ℤ) : ℚ)|
      ≤ (([1 / 2, 1] : List ℚ).length : ℚ) * (5 / 100) :=
  c8_preference_sum_tolerance [1 / 2, 1] 3 [2, 1] (by decide) (by norm_num)

/-! ## C9: the per-problem shuffle does not affect the assignment -/

/-- The per-problem preference map: the looked-up value of agent `a` is the
fraction at index `a - 1` whenever `a` is a key, whatever the iteration
order of the (shuffled) key list. -/
theorem assign_preferences_lookup (order : List ℕ) (draws : List ℚ) (W : ℚ)
    (a : ℕ) :
    (assign_preferences_problem order draws W).lookup a
      = if a ∈ order then some ((preference_fractions draws W).getD (a - 1) 0)
        else none := by
  induction order with
  | nil => simp [assign_preferences_problem]
  | cons b rest ih =>
    unfold assign_preferences_problem at ih ⊢
    rw [List.map_cons]
    by_cases hab : a = b
    · subst hab
      simp [List.lookup]
    · have hba : (a == b) = false := by
        simp [hab]
      simp only [List.lookup, hba, ih, List.mem_cons]
      by_cases hmem : a ∈ rest
      · rw [if_pos hmem, if_pos (Or.inr hmem)]
      · rw [if_neg hmem, if_neg (by tauto)]

/-- Two shuffle outcomes of the same key set produce identical preference
maps: the shuffle draws have no effect on the assignment. -/
theorem assign_lookup_perm_invariant (order1 order2 : List ℕ)
    (h : order1.Perm order2) (draws : List ℚ) (W : ℚ) (a : ℕ) :
    (assign_preferences_problem order1 draws W).lookup a
      = (assign_preferences_problem order2 draws W).lookup a := by
  rw [assign_preferences_lookup, assign_preferences_lookup]
  by_cases hmem : a ∈ order1
  · rw [if_pos hmem, if_pos (h.mem_iff.mp hmem)]
  · rw [if_neg hmem, if_neg (fun hx => hmem (h.mem_iff.mpr hx))]

/-- C9, evaluated at the failing input: the two possible shuffle outcomes
`[1, 2]` and `[2, 1]` of the two-agent key list (differing only in the
shuffle draws) produce the very same fraction-to-agent assignment for the
problem — agent `k` always receives fraction `k` (line 78 indexes by
`int(agent) - 1`, not by the shuffled position), so the claimed
shuffle-induced randomization does not exist. -/
theorem c9_shuffle_has_no_effect :
    (assign_preferences_problem [2, 1] [1 / 4, 1 / 2] 3).lookup 1
      = (assign_preferences_problem [1, 2] [1 / 4, 1 / 2] 3).lookup 1
    ∧ (assign_preferences_problem [2, 1] [1 / 4, 1 / 2] 3).lookup 2
      = (assign_preferences_problem [1, 2] [1 / 4, 1 / 2] 3).lookup 2
    ∧ ([2, 1] : List ℕ) ≠ [1, 2] :=
  ⟨assign_lookup_perm_invariant [2, 1] [1, 2] (by decide) [1 / 4, 1 / 2] 3 1,
   assign_lookup_perm_invariant [2, 1] [1, 2] (by decide) [1 / 4, 1 / 2] 3 2,
   by decide⟩
